import Mathlib

/-
Verification development for the image-captioning training notebook
(src/2_Training.ipynb): a shallow embedding of the training loop (cell-8),
the validation inference pass (cell-13), and the BLEU aggregation used in
cell-17, together with theorems about the spec's claims on them.

Conventions: machine floats are embedded as rationals (for executable parts)
or reals (for the transcendental exp); external library components
(data loader, encoder, decoder, optimizer) are oracles supplied as
parameters; observable side effects (log file writes, flushes, checkpoint
saves, optimizer steps) are recorded in an explicit event trace.
-/

/-! ## Training loop (cell-8): data model -/

/-- Observable side effects of the training run, in program order:
opening the log file, writing a line, flushing, an optimizer step,
saving a checkpoint file, closing the log file. -/
inductive Event where
  | openLog : Event
  | write : String → Event
  | flush : Event
  | optStep : Event
  | save : String → Event
  | closeLog : Event
deriving DecidableEq, Repr

/-- Python runtime errors that the embedded fragment can raise. -/
inductive PyErr where
  | nameError : String → PyErr
deriving DecidableEq, Repr

/-- Values bound to Python local names in the modelled fragment:
the sampled index list, and a SubsetRandomSampler wrapping such a list. -/
inductive PyVal where
  | indices : List Nat → PyVal
  | sampler : List Nat → PyVal
deriving DecidableEq, Repr

/-- The index list carried by a value (a sampler yields its wrapped indices). -/
def PyVal.indicesOf : PyVal → List Nat
  | PyVal.indices l => l
  | PyVal.sampler l => l

/-- Python name lookup over the local bindings: reading an unbound name
raises NameError, as in CPython. -/
def lookupName (locals : List (String × PyVal)) (x : String) : Except PyErr PyVal :=
  match locals.find? (fun p => p.1 == x) with
  | some p => Except.ok p.2
  | none => Except.error (PyErr.nameError x)

/-- The scalar hyperparameters of cell-2 that the loop reads. -/
structure TrainConfig where
  numEpochs : Nat
  totalStep : Nat
  saveEvery : Nat
  printEvery : Nat

/-- External collaborators of the loop, abstracted as oracles over an
abstract batch type B: get_train_indices, the batch fetch through the
re-sampled loader, the loss value criterion(...).item() of the
forward pass, and the float exp used by np.exp. -/
structure TrainOracles (B : Type) where
  getTrainIndices : Nat → Nat → List Nat
  fetchBatch : List Nat → B
  lossOf : B → Rat
  expF : Rat → Rat

/-- Observable state of a run: log-file lines written so far, count of
optimizer steps, checkpoint paths saved, lines printed to stdout, and
the full event trace. -/
structure TrainState where
  log : List String
  optSteps : Nat
  saved : List String
  printed : List String
  events : List Event
deriving DecidableEq, Repr

/-- State right after f = open(log_file, "w"): the file exists and is empty. -/
def initState : TrainState :=
  { log := [], optSteps := 0, saved := [], printed := [], events := [Event.openLog] }

/-! ## Training loop: number formatting -/

/-- Round-half-even of a rational to an integer, the rounding used by
Python float formatting. -/
def roundHalfEven (q : Rat) : Int :=
  let f : Int := Int.floor q
  let r : Rat := q - (f : Rat)
  if r < 1/2 then f
  else if 1/2 < r then f + 1
  else if 2 ∣ f then f else f + 1

/-- The four decimal digits of a natural number below 10000, zero padded. -/
def pad4 (k : Nat) : String :=
  String.mk [Nat.digitChar (k / 1000 % 10), Nat.digitChar (k / 100 % 10),
    Nat.digitChar (k / 10 % 10), Nat.digitChar (k % 10)]

/-- Python percent/format-spec ".4f" on a rational: round half to even at
four decimal places and print with exactly four fractional digits. -/
def fmt4 (q : Rat) : String :=
  let n : Int := roundHalfEven (q * 10000)
  let m : Nat := n.natAbs
  (if n < 0 then "-" else "") ++ toString (m / 10000) ++ "." ++ pad4 (m % 10000)

/-- The stats f-string of cell-8:
Epoch [e/E], Step [s/S], Loss: l, Perplexity: p with both floats in ".4f". -/
def statsLine (epoch numEpochs iStep totalStep : Nat) (loss perp : Rat) : String :=
  "Epoch [" ++ toString epoch ++ "/" ++ toString numEpochs ++ "], Step [" ++
    toString iStep ++ "/" ++ toString totalStep ++ "], Loss: " ++ fmt4 loss ++
    ", Perplexity: " ++ fmt4 perp

/-- Real-number semantics of the pair of statistics formatted on one log
line (cell-8): the code formats loss.item() and np.exp(loss.item());
embedding floats as reals, np.exp is Real.exp. -/
noncomputable def loggedStats (loss : Real) : Real × Real :=
  (loss, Real.exp loss)

/-! ## Training loop: per-step and per-epoch actions -/

/-- The tail of the loop body after the sampler assignment: fetch the
batch, forward pass, loss, backward, optimizer.step(), build the stats
line, write it to the log followed by a flush, and print it to stdout
every printEvery steps. -/
def stepTail {B : Type} (O : TrainOracles B) (cfg : TrainConfig)
    (epoch iStep : Nat) (samplerIndices : List Nat) (st : TrainState) : TrainState :=
  let batch := O.fetchBatch samplerIndices
  let loss := O.lossOf batch
  let stats := statsLine epoch cfg.numEpochs iStep cfg.totalStep loss (O.expF loss)
  { st with
    optSteps := st.optSteps + 1
    log := st.log ++ [stats ++ "\n"]
    printed := if iStep % cfg.printEvery == 0 then st.printed ++ [stats] else st.printed
    events := st.events ++ [Event.optStep, Event.write (stats ++ "\n"), Event.flush] }

/-- One iteration of the inner loop, as written in cell-8:
indices = data_loader.dataset.get_train_indices() binds the name
indices; the sampler construction binds the (misspelled) name
new_saosmpler; the next statement reads the name new_sampler,
which is resolved through Python name lookup. -/
def trainStep {B : Type} (O : TrainOracles B) (cfg : TrainConfig)
    (epoch iStep : Nat) (st : TrainState) : TrainState × Option PyErr :=
  let indices := O.getTrainIndices epoch iStep
  let locals : List (String × PyVal) := [("indices", PyVal.indices indices)]
  let locals := ("new_saosmpler", PyVal.sampler indices) :: locals
  match lookupName locals "new_sampler" with
  | Except.error e => (st, some e)
  | Except.ok v => (stepTail O cfg epoch iStep (PyVal.indicesOf v) st, none)

/-- The inner for i_step loop over the given step indices: an uncaught
exception aborts the run, keeping the state reached so far. -/
def runSteps {B : Type} (O : TrainOracles B) (cfg : TrainConfig) (epoch : Nat) :
    List Nat → TrainState → TrainState × Option PyErr
  | [], st => (st, none)
  | s :: rest, st =>
    match trainStep O cfg epoch s st with
    | (st2, some e) => (st2, some e)
    | (st2, none) => runSteps O cfg epoch rest st2

/-- End of an epoch: when epoch % save_every == 0, torch.save writes
decoder then encoder state under ./models with the epoch index in the
file name. -/
def epochEnd (cfg : TrainConfig) (epoch : Nat) (st : TrainState) : TrainState :=
  if epoch % cfg.saveEvery == 0 then
    let dec := "./models/decoder-" ++ toString epoch ++ ".pkl"
    let enc := "./models/encoder-" ++ toString epoch ++ ".pkl"
    { st with
      saved := st.saved ++ [dec, enc]
      events := st.events ++ [Event.save dec, Event.save enc] }
  else st

/-- The outer for epoch loop over the given epoch indices. -/
def runEpochs {B : Type} (O : TrainOracles B) (cfg : TrainConfig) :
    List Nat → TrainState → TrainState × Option PyErr
  | [], st => (st, none)
  | e :: rest, st =>
    match runSteps O cfg e (List.range' 1 cfg.totalStep) st with
    | (st2, some err) => (st2, some err)
    | (st2, none) => runEpochs O cfg rest (epochEnd cfg e st2)

/-- The whole cell-8 run: open the log file, iterate epochs 1..num_epochs
each with steps 1..total_step, and close the log file on successful
completion; an uncaught exception leaves the file open. -/
def runTraining {B : Type} (O : TrainOracles B) (cfg : TrainConfig) :
    TrainState × Option PyErr :=
  match runEpochs O cfg (List.range' 1 cfg.numEpochs) initState with
  | (st, none) => ({ st with events := st.events ++ [Event.closeLog] }, none)
  | (st, some e) => (st, some e)

/-- Every write event in the trace is immediately followed by a flush. -/
def writesFlushed : List Event → Bool
  | [] => true
  | Event.write _ :: rest =>
    match rest with
    | Event.flush :: _ => writesFlushed rest
    | _ => false
  | _ :: rest => writesFlushed rest

/-- A trace fragment consisting only of checkpoint-save events. -/
def savesOnly (t : List Event) : Prop :=
  ∀ ev ∈ t, ∃ p, ev = Event.save p

/-- A concrete oracle instance for evaluating the run on a trivial batch
type. -/
def sampleOracles : TrainOracles Unit :=
  { getTrainIndices := fun _ _ => [0]
    fetchBatch := fun _ => ()
    lossOf := fun _ => 2
    expF := fun q => q + 1 }

/-- The smallest interesting configuration: one epoch of one step,
save_every = 1, print_every = 20 as in cell-2. -/
def sampleConfig : TrainConfig :=
  { numEpochs := 1, totalStep := 1, saveEvery := 1, printEvery := 20 }

/-- The notebook's configuration shape for the spec's checkpoint-naming
example: epoch 3 with save_every = 1. -/
def exampleConfig : TrainConfig :=
  { numEpochs := 3, totalStep := 3236, saveEvery := 1, printEvery := 20 }

/-! ## BLEU scoring (cell-17), modelled from the spec

The function nlp_utils.bleu_score is imported by the notebook but
nlp_utils.py is not among the given sources, so it is modelled from the
spec here. -/

/-- Case normalization and whitespace tokenization: lowercase the string
and split it into maximal runs of non-space characters. -/
def wordsAux : List Char → List Char → List String
  | [], acc => if acc.isEmpty then [] else [String.mk acc.reverse]
  | c :: rest, acc =>
    if c = ' ' then
      if acc.isEmpty then wordsAux rest []
      else String.mk acc.reverse :: wordsAux rest []
    else wordsAux rest (c :: acc)

/-- Modelled from the spec: the tokenization/case-normalization applied
before comparison in nlp_utils.bleu_score (absent from the sources) is
fixed here as lowercasing followed by whitespace splitting. -/
def tokenize (s : String) : List String :=
  wordsAux (s.toList.map Char.toLower) []

/-- The largest number of occurrences of the token w in any single
reference token list (zero when there are no references). -/
def maxRefCount (w : String) (refs : List (List String)) : Nat :=
  (refs.map (fun r => r.count w)).foldr max 0

/-- Clipped token matches of a candidate against a reference set: each
distinct candidate token counts at most as often as it appears in the
best single reference. -/
def clippedMatches (cand : List String) (refs : List (List String)) : Nat :=
  (cand.dedup.map (fun w => min (cand.count w) (maxRefCount w refs))).sum

/-- Modelled from the spec: the per-image BLEU score of
nlp_utils.bleu_score (absent from the sources). The spec fixes an
n-gram-precision-based metric with maximum 1.0, attained on a candidate
identical to a reference, and 0.0 on an empty candidate; it leaves the
n-gram order open, so the metric is instantiated as modified unigram
precision after tokenization. -/
def sentenceScore (refs : List String) (cand : String) : Rat :=
  let c := tokenize cand
  if c.isEmpty then 0
  else (clippedMatches c (refs.map tokenize) : Rat) / (c.length : Rat)

/-- Per-image scores over exactly the image IDs present in both maps:
a predicted entry is scored iff its key has an entry in the reference
map, and keys missing on either side are skipped without error. -/
def scoredList (true_sentences predicted_sentences : List (Nat × List String)) :
    List Rat :=
  predicted_sentences.filterMap (fun kc =>
    (List.lookup kc.1 true_sentences).map
      (fun refs => sentenceScore refs (kc.2.headD "")))

/-- The image IDs that contribute to the aggregate. -/
def scoredIds (true_sentences predicted_sentences : List (Nat × List String)) :
    List Nat :=
  predicted_sentences.filterMap (fun kc =>
    if (List.lookup kc.1 true_sentences).isSome then some kc.1 else none)

/-- Modelled from the spec: nlp_utils.bleu_score (absent from the
sources). Reference and prediction maps are keyed by image ID; each key
present in both maps is scored per image, mismatched keys are silently
ignored, and the aggregate is the mean over the scored images (0 when
no image is scored, so the call never raises). -/
def bleu_score (true_sentences predicted_sentences : List (Nat × List String)) :
    Rat :=
  let scored := scoredList true_sentences predicted_sentences
  if scored.length = 0 then 0 else scored.sum / (scored.length : Rat)

/-! ## Validation inference pass (cell-13) -/

/-- External collaborators of the validation loop, abstracted over the
image and feature tensor types: the encoder (with its unsqueeze folded
into the feature type), DecoderRNN.sample, and clean_sentence with the
vocabulary's idx2word already applied. -/
structure ValOracles (Img Feat : Type) where
  encoder : Img → Feat
  sample : Feat → List Nat
  cleanSentence : List Nat → String

/-- Observable state of the validation pass: the defaultdict(list)
pred_result, plus counts of encoder and decoder.sample invocations. -/
structure ValState where
  predResult : List (Int × List String)
  encoderCalls : Nat
  sampleCalls : Nat

/-- defaultdict(list) append: pred_result[k].append(s) extends the list
at key k, creating a fresh singleton entry when k is absent. -/
def appendAt (m : List (Int × List String)) (k : Int) (s : String) :
    List (Int × List String) :=
  match m with
  | [] => [(k, [s])]
  | kv :: rest =>
    if kv.1 = k then (kv.1, kv.2 ++ [s]) :: rest
    else kv :: appendAt rest k s

/-- One iteration of the cell-13 loop: features = encoder(img) (one
encoder call), output = decoder.sample(features) (one sample call),
sentence = clean_sentence(output, idx2word), then
pred_result[img_id.item()].append(sentence). -/
def valStep {Img Feat : Type} (O : ValOracles Img Feat) (st : ValState)
    (p : Int × Img) : ValState :=
  let features := O.encoder p.2
  let output := O.sample features
  let sentence := O.cleanSentence output
  { predResult := appendAt st.predResult p.1 sentence
    encoderCalls := st.encoderCalls + 1
    sampleCalls := st.sampleCalls + 1 }

/-- The whole cell-13 loop over the (img_id, img) pairs yielded by the
validation loader, starting from an empty defaultdict. -/
def runValInference {Img Feat : Type} (O : ValOracles Img Feat)
    (pairs : List (Int × Img)) : ValState :=
  pairs.foldl (valStep O) { predResult := [], encoderCalls := 0, sampleCalls := 0 }

/-- The caption list accumulated for an image ID (empty when absent). -/
def captionsAt (m : List (Int × List String)) (k : Int) : List String :=
  match m.find? (fun kv => kv.1 = k) with
  | some kv => kv.2
  | none => []

/-- Total number of caption strings accumulated over all image IDs. -/
def totalCaptions (m : List (Int × List String)) : Nat :=
  (m.map (fun kv => kv.2.length)).sum

/-- A concrete validation-oracle instance over trivial image and feature
types, for evaluating the pass on explicit inputs. -/
def sampleValOracles : ValOracles Unit Unit :=
  { encoder := fun _ => ()
    sample := fun _ => [0]
    cleanSentence := fun _ => "a dog" }

/-! ## Helper lemmas: training loop -/

theorem trainStep_eq {B : Type} (O : TrainOracles B) (cfg : TrainConfig)
    (epoch iStep : Nat) (st : TrainState) :
    trainStep O cfg epoch iStep st = (st, some (PyErr.nameError "new_sampler")) := by
  have hbeq1 : ("new_saosmpler" == "new_sampler") = false := by decide
  have hbeq2 : ("indices" == "new_sampler") = false := by decide
  simp [trainStep, lookupName, List.find?, hbeq1, hbeq2]

theorem runSteps_cons {B : Type} (O : TrainOracles B) (cfg : TrainConfig)
    (epoch s : Nat) (rest : List Nat) (st : TrainState) :
    runSteps O cfg epoch (s :: rest) st = (st, some (PyErr.nameError "new_sampler")) := by
  simp [runSteps, trainStep_eq]

theorem runTraining_err {B : Type} (O : TrainOracles B) (cfg : TrainConfig)
    (h1 : 1 ≤ cfg.numEpochs) (h2 : 1 ≤ cfg.totalStep) :
    runTraining O cfg = (initState, some (PyErr.nameError "new_sampler")) := by
  obtain ⟨n, hn⟩ : ∃ n, cfg.numEpochs = n + 1 := ⟨cfg.numEpochs - 1, by omega⟩
  obtain ⟨m, hm⟩ : ∃ m, cfg.totalStep = m + 1 := ⟨cfg.totalStep - 1, by omega⟩
  simp [runTraining, hn, hm, List.range', runEpochs, runSteps_cons]

@[simp] theorem writesFlushed_nil : writesFlushed [] = true := rfl

@[simp] theorem writesFlushed_cons_openLog (l : List Event) :
    writesFlushed (Event.openLog :: l) = writesFlushed l := rfl

@[simp] theorem writesFlushed_cons_flush (l : List Event) :
    writesFlushed (Event.flush :: l) = writesFlushed l := rfl

@[simp] theorem writesFlushed_cons_optStep (l : List Event) :
    writesFlushed (Event.optStep :: l) = writesFlushed l := rfl

@[simp] theorem writesFlushed_cons_save (p : String) (l : List Event) :
    writesFlushed (Event.save p :: l) = writesFlushed l := rfl

@[simp] theorem writesFlushed_cons_closeLog (l : List Event) :
    writesFlushed (Event.closeLog :: l) = writesFlushed l := rfl

@[simp] theorem writesFlushed_cons_write_flush (s : String) (l : List Event) :
    writesFlushed (Event.write s :: Event.flush :: l) =
      writesFlushed (Event.flush :: l) := rfl

theorem savesOnly_nil : savesOnly [] := by
  intro ev h
  cases h

theorem savesOnly_append {t1 t2 : List Event} (h1 : savesOnly t1) (h2 : savesOnly t2) :
    savesOnly (t1 ++ t2) := by
  intro ev hev
  rcases List.mem_append.mp hev with h | h
  · exact h1 ev h
  · exact h2 ev h

theorem savesOnly_writesFlushed {t : List Event} (ht : savesOnly t) :
    ∀ l, writesFlushed l = true → writesFlushed (t ++ l) = true := by
  induction t with
  | nil => intro l hl; simpa using hl
  | cons ev rest ih =>
    intro l hl
    obtain ⟨p, hp⟩ := ht ev (List.mem_cons_self ev rest)
    subst hp
    have hrest : savesOnly rest := fun e he => ht e (List.mem_cons_of_mem _ he)
    simpa using ih hrest l hl

theorem savesOnly_not_openLog {t : List Event} (ht : savesOnly t) :
    Event.openLog ∉ t := by
  intro hm
  obtain ⟨p, hp⟩ := ht _ hm
  cases hp

theorem savesOnly_not_closeLog {t : List Event} (ht : savesOnly t) :
    Event.closeLog ∉ t := by
  intro hm
  obtain ⟨p, hp⟩ := ht _ hm
  cases hp

theorem epochEnd_events (cfg : TrainConfig) (e : Nat) (st : TrainState) :
    ∃ t, (epochEnd cfg e st).events = st.events ++ t ∧ savesOnly t := by
  unfold epochEnd
  split
  · refine ⟨_, rfl, ?_⟩
    intro ev hev
    rcases List.mem_cons.mp hev with h | h
    · exact ⟨_, h⟩
    · rcases List.mem_cons.mp h with h2 | h2
      · exact ⟨_, h2⟩
      · cases h2
  · exact ⟨[], by simp, savesOnly_nil⟩

theorem foldl_epochEnd_events (cfg : TrainConfig) :
    ∀ (es : List Nat) (st : TrainState),
      ∃ t, (es.foldl (fun s e => epochEnd cfg e s) st).events = st.events ++ t ∧
        savesOnly t := by
  intro es
  induction es with
  | nil => intro st; exact ⟨[], by simp, savesOnly_nil⟩
  | cons e rest ih =>
    intro st
    obtain ⟨t1, ht1, hs1⟩ := epochEnd_events cfg e st
    obtain ⟨t2, ht2, hs2⟩ := ih (epochEnd cfg e st)
    exact ⟨t1 ++ t2, by rw [List.foldl_cons, ht2, ht1, List.append_assoc],
      savesOnly_append hs1 hs2⟩

theorem runEpochs_noSteps {B : Type} (O : TrainOracles B) (cfg : TrainConfig)
    (h : cfg.totalStep = 0) :
    ∀ (es : List Nat) (st : TrainState),
      runEpochs O cfg es st = (es.foldl (fun s e => epochEnd cfg e s) st, none) := by
  intro es
  induction es with
  | nil => intro st; rfl
  | cons e rest ih =>
    intro st
    have hsteps : runSteps O cfg e (List.range' 1 cfg.totalStep) st = (st, none) := by
      rw [h]
      rfl
    simp [runEpochs, hsteps, ih]

/-! ## Helper lemmas: number formatting -/

theorem pad4_length (k : Nat) : (pad4 k).length = 4 := rfl

theorem digitChar_lt_ten_isDigit : ∀ d : Nat, d < 10 → (Nat.digitChar d).isDigit = true := by
  decide

theorem pad4_digits (k : Nat) : ∀ c ∈ (pad4 k).toList, c.isDigit = true := by
  intro c hc
  have hmod : ∀ x : Nat, x % 10 < 10 := fun x => Nat.mod_lt _ (by norm_num)
  have heq : (pad4 k).toList = [Nat.digitChar (k / 1000 % 10), Nat.digitChar (k / 100 % 10),
      Nat.digitChar (k / 10 % 10), Nat.digitChar (k % 10)] := rfl
  rw [heq] at hc
  simp only [List.mem_cons, List.not_mem_nil, or_false] at hc
  rcases hc with h | h | h | h
  all_goals rw [h]
  all_goals exact digitChar_lt_ten_isDigit _ (hmod _)

theorem fmt4_shape (q : Rat) :
    ∃ a k, fmt4 q = a ++ "." ++ pad4 k ∧ (pad4 k).length = 4 ∧
      ∀ c ∈ (pad4 k).toList, c.isDigit = true :=
  ⟨(if roundHalfEven (q * 10000) < 0 then "-" else "") ++
      toString ((roundHalfEven (q * 10000)).natAbs / 10000),
    (roundHalfEven (q * 10000)).natAbs % 10000, rfl, pad4_length _, pad4_digits _⟩

/-! ## Claim theorems: training loop -/

/-- Claim C1 (code defect evaluated at the failing input): with one epoch of
one step, the run as written aborts with NameError on the unbound name
new_sampler before fetching any batch, so no optimizer step is applied and
no log line is written, contradicting the claimed per-step contract. -/
theorem training_step_typo_aborts_run :
    runTraining sampleOracles sampleConfig =
      (initState, some (PyErr.nameError "new_sampler"))
    ∧ (runTraining sampleOracles sampleConfig).1.optSteps = 0
    ∧ (runTraining sampleOracles sampleConfig).1.log = []
    ∧ (runTraining sampleOracles sampleConfig).1.saved = [] := by
  decide

/-- Claim C10: for any oracles and any configuration with at least one epoch
and one step, the first iteration binds new_saosmpler, reads the unbound
name new_sampler, and raises NameError: the run ends with the log file
created but empty, no optimizer step taken, and no checkpoint saved. -/
theorem training_loop_typo_name_error {B : Type} (O : TrainOracles B)
    (cfg : TrainConfig) (h1 : 1 ≤ cfg.numEpochs) (h2 : 1 ≤ cfg.totalStep) :
    runTraining O cfg = (initState, some (PyErr.nameError "new_sampler"))
    ∧ (runTraining O cfg).1.log = []
    ∧ (runTraining O cfg).1.optSteps = 0
    ∧ (runTraining O cfg).1.saved = []
    ∧ (runTraining O cfg).1.events = [Event.openLog] := by
  have h := runTraining_err O cfg h1 h2
  refine ⟨h, ?_, ?_, ?_, ?_⟩ <;> rw [h] <;> rfl

/-- Witness for C10 at the concrete configuration of one epoch of one step. -/
theorem training_loop_typo_name_error_witness :
    1 ≤ sampleConfig.numEpochs ∧ 1 ≤ sampleConfig.totalStep ∧
    runTraining sampleOracles sampleConfig =
      (initState, some (PyErr.nameError "new_sampler")) :=
  ⟨by decide, by decide,
    (training_loop_typo_name_error sampleOracles sampleConfig
      (by decide) (by decide)).1⟩

/-- Claim C2: the two statistics formatted into one log line are the loss
value and np.exp of that same loss value: embedding floats as reals, the
logged perplexity is exactly Real.exp of the logged loss, and the line the
step writes carries the loss and the float exp applied to that same loss. -/
theorem logged_perplexity_exact (B : Type) :
    (∀ loss : Real, (loggedStats loss).2 = Real.exp (loggedStats loss).1)
    ∧ ∀ (O : TrainOracles B) (cfg : TrainConfig) (e s : Nat) (idx : List Nat)
        (st : TrainState),
        (stepTail O cfg e s idx st).log = st.log ++
          [statsLine e cfg.numEpochs s cfg.totalStep (O.lossOf (O.fetchBatch idx))
            (O.expF (O.lossOf (O.fetchBatch idx))) ++ "\n"] :=
  ⟨fun _ => rfl, fun _ _ _ _ _ _ => rfl⟩

/-- Claim C3: the end-of-epoch block saves exactly the two checkpoint files
decoder-e.pkl then encoder-e.pkl under ./models when e % save_every == 0,
with names determined only by the epoch index, and does nothing otherwise. -/
theorem checkpoint_file_naming (cfg : TrainConfig) (e : Nat) (st : TrainState) :
    (e % cfg.saveEvery = 0 → (epochEnd cfg e st).saved =
      st.saved ++ ["./models/decoder-" ++ toString e ++ ".pkl",
        "./models/encoder-" ++ toString e ++ ".pkl"])
    ∧ (e % cfg.saveEvery ≠ 0 → epochEnd cfg e st = st) := by
  constructor
  · intro h
    unfold epochEnd
    rw [if_pos (by simp [h])]
  · intro h
    unfold epochEnd
    rw [if_neg (by simp [h])]

/-- Witness for C3: after epoch 3 with save_every = 1 the checkpoint pair is
decoder-3.pkl and encoder-3.pkl, matching the spec's example. -/
theorem checkpoint_file_naming_witness :
    3 % exampleConfig.saveEvery = 0 ∧
    (epochEnd exampleConfig 3 initState).saved =
      ["./models/decoder-3.pkl", "./models/encoder-3.pkl"] := by
  refine ⟨by decide, ?_⟩
  rw [(checkpoint_file_naming exampleConfig 3 initState).1 (by decide)]
  rfl

/-- Claim C8: each execution of the per-step tail appends exactly one line
to the log, of the exact shape Epoch [e/E], Step [s/S], Loss: l,
Perplexity: p, where the two numeric fields end in a point followed by
exactly four decimal digits. -/
theorem log_line_format_per_step {B : Type} (O : TrainOracles B)
    (cfg : TrainConfig) (e s : Nat) (idx : List Nat) (st : TrainState) :
    (∃ lossStr perpStr : String,
      (stepTail O cfg e s idx st).log = st.log ++
        ["Epoch [" ++ toString e ++ "/" ++ toString cfg.numEpochs ++ "], Step [" ++
          toString s ++ "/" ++ toString cfg.totalStep ++ "], Loss: " ++ lossStr ++
          ", Perplexity: " ++ perpStr ++ "\n"]
      ∧ (∃ a k, lossStr = a ++ "." ++ pad4 k ∧ (pad4 k).length = 4
          ∧ ∀ c ∈ (pad4 k).toList, c.isDigit = true)
      ∧ (∃ a k, perpStr = a ++ "." ++ pad4 k ∧ (pad4 k).length = 4
          ∧ ∀ c ∈ (pad4 k).toList, c.isDigit = true))
    ∧ (stepTail O cfg e s idx st).log.length = st.log.length + 1 := by
  refine ⟨⟨fmt4 (O.lossOf (O.fetchBatch idx)),
    fmt4 (O.expF (O.lossOf (O.fetchBatch idx))), rfl, fmt4_shape _, fmt4_shape _⟩, ?_⟩
  simp [stepTail]

/-- Claim C9: in every run, the trace starts with the single log-file open,
every write is immediately followed by a flush, and the file is closed
exactly when the run completes without an exception, the close being the
final event; an aborted run never closes the file. -/
theorem log_file_open_flush_close {B : Type} (O : TrainOracles B)
    (cfg : TrainConfig) :
    ∃ t, (runTraining O cfg).1.events = Event.openLog :: t
      ∧ Event.openLog ∉ t
      ∧ writesFlushed (runTraining O cfg).1.events = true
      ∧ (Event.closeLog ∈ (runTraining O cfg).1.events ↔ (runTraining O cfg).2 = none)
      ∧ ((runTraining O cfg).2 = none →
          ∃ t2, (runTraining O cfg).1.events = t2 ++ [Event.closeLog]) := by
  by_cases h0 : cfg.numEpochs = 0
  · have hrange : List.range' 1 cfg.numEpochs = [] := by rw [h0]; rfl
    have hr1 : (runTraining O cfg).1.events = [Event.openLog, Event.closeLog] := by
      simp [runTraining, hrange, runEpochs, initState]
    have hr2 : (runTraining O cfg).2 = none := by
      simp [runTraining, hrange, runEpochs]
    refine ⟨[Event.closeLog], hr1, by simp, ?_, ?_, ?_⟩
    · rw [hr1]
      rfl
    · rw [hr1, hr2]
      simp
    · intro _
      exact ⟨[Event.openLog], by rw [hr1]; rfl⟩
  · by_cases hts : cfg.totalStep = 0
    · have hr := runEpochs_noSteps O cfg hts (List.range' 1 cfg.numEpochs) initState
      obtain ⟨T, hT, hsave⟩ :=
        foldl_epochEnd_events cfg (List.range' 1 cfg.numEpochs) initState
      have hrun : runTraining O cfg =
          ({ (List.range' 1 cfg.numEpochs).foldl (fun s e => epochEnd cfg e s) initState
              with events := initState.events ++ T ++ [Event.closeLog] }, none) := by
        simp [runTraining, hr, hT]
      refine ⟨T ++ [Event.closeLog], ?_, ?_, ?_, ?_, ?_⟩
      · rw [hrun]
        simp [initState]
      · intro hmem
        rcases List.mem_append.mp hmem with h | h
        · exact savesOnly_not_openLog hsave h
        · simp at h
      · rw [hrun]
        show writesFlushed ((initState.events ++ T) ++ [Event.closeLog]) = true
        rw [List.append_assoc]
        show writesFlushed (Event.openLog :: (T ++ [Event.closeLog])) = true
        rw [writesFlushed_cons_openLog]
        exact savesOnly_writesFlushed hsave _ rfl
      · rw [hrun]
        simp
      · intro _
        exact ⟨initState.events ++ T, by rw [hrun]⟩
    · have h := runTraining_err O cfg (by omega) (by omega)
      refine ⟨[], ?_, by simp, ?_, ?_, ?_⟩
      · rw [h]
        rfl
      · rw [h]
        rfl
      · rw [h]
        simp [initState]
      · rw [h]
        intro hnone
        cases hnone

/-! ## Helper lemmas: BLEU scoring -/

theorem lookup_isSome_iff (k : Nat) (t : List (Nat × List String)) :
    (List.lookup k t).isSome = true ↔ k ∈ t.map Prod.fst := by
  induction t with
  | nil => simp [List.lookup]
  | cons kv rest ih =>
    cases kv with
    | mk k1 v1 =>
      rw [List.lookup_cons]
      by_cases hk : k = k1
      · subst hk
        simp
      · have : (k == k1) = false := by simpa using hk
        rw [this]
        simp only [List.map_cons, List.mem_cons]
        rw [ih]
        simp [hk]

theorem le_foldr_max (l : List Nat) (a : Nat) (h : a ∈ l) : a ≤ l.foldr max 0 := by
  induction l with
  | nil => cases h
  | cons b rest ih =>
    rcases List.mem_cons.mp h with h1 | h1
    · subst h1
      exact le_max_left _ _
    · exact le_trans (ih h1) (le_max_right _ _)

theorem count_le_maxRefCount (w : String) (c : List String) (refs : List (List String))
    (h : c ∈ refs) : c.count w ≤ maxRefCount w refs :=
  le_foldr_max _ _ (List.mem_map_of_mem _ h)

theorem clippedMatches_self (c : List String) (refs : List (List String))
    (h : c ∈ refs) : clippedMatches c refs = c.length := by
  unfold clippedMatches
  have hcong : ∀ w ∈ c.dedup,
      min (c.count w) (maxRefCount w refs) = c.count w :=
    fun w _ => min_eq_left (count_le_maxRefCount w c refs h)
  rw [List.map_congr_left hcong]
  exact List.sum_map_count_dedup_eq_length c

theorem sentenceScore_self (refs : List String) (cand : String)
    (hmem : cand ∈ refs) (hne : tokenize cand ≠ []) :
    sentenceScore refs cand = 1 := by
  unfold sentenceScore
  have hie : (tokenize cand).isEmpty = false := by
    simpa [List.isEmpty_iff] using hne
  rw [if_neg (by simp [hie])]
  rw [clippedMatches_self (tokenize cand) (refs.map tokenize)
    (List.mem_map_of_mem _ hmem)]
  have hlen : ((tokenize cand).length : Rat) ≠ 0 := by
    have : (tokenize cand).length ≠ 0 := by
      simpa [List.length_eq_zero] using hne
    exact_mod_cast this
  exact div_self hlen

theorem sum_all_ones (l : List Rat) (h : ∀ x ∈ l, x = 1) :
    l.sum = (l.length : Rat) := by
  induction l with
  | nil => simp
  | cons a rest ih =>
    have ha : a = 1 := h a (List.mem_cons_self a rest)
    have hrest : rest.sum = (rest.length : Rat) :=
      ih (fun x hx => h x (List.mem_cons_of_mem _ hx))
    simp [ha, hrest]
    ring

theorem tokenize_empty : tokenize "" = [] := rfl

theorem sentenceScore_empty_cand (refs : List String) :
    sentenceScore refs "" = 0 := rfl

/-! ## Claim theorems: BLEU scoring -/

/-- Claim C4 (spec-modelled aggregator): an image ID contributes to the
BLEU aggregate exactly when it is a key of both the prediction map and the
reference map, so mismatched keys on either side are skipped without any
error; on the spec's scenario only image 1 is scored and the aggregate is
its per-image score, here 1. -/
theorem bleu_key_mismatch_excluded :
    (∀ (t p : List (Nat × List String)) (k : Nat),
      k ∈ scoredIds t p ↔ k ∈ p.map Prod.fst ∧ k ∈ t.map Prod.fst)
    ∧ scoredIds [(1, ["a dog"]), (2, ["a cat"])] [(1, ["a dog"])] = [1]
    ∧ bleu_score [(1, ["a dog"]), (2, ["a cat"])] [(1, ["a dog"])]
        = sentenceScore ["a dog"] "a dog"
    ∧ bleu_score [(1, ["a dog"]), (2, ["a cat"])] [(1, ["a dog"])] = 1 := by
  have hmain : ∀ (t p : List (Nat × List String)) (k : Nat),
      k ∈ scoredIds t p ↔ k ∈ p.map Prod.fst ∧ k ∈ t.map Prod.fst := by
    intro t p k
    unfold scoredIds
    rw [List.mem_filterMap]
    constructor
    · rintro ⟨kc, hkc, hf⟩
      by_cases hs : (List.lookup kc.1 t).isSome
      · rw [if_pos hs] at hf
        have hk : kc.1 = k := by
          simpa using hf
        subst hk
        exact ⟨List.mem_map_of_mem _ hkc, (lookup_isSome_iff _ t).mp hs⟩
      · rw [if_neg hs] at hf
        cases hf
    · rintro ⟨hp, ht⟩
      rcases List.mem_map.mp hp with ⟨kc, hkc, hk⟩
      refine ⟨kc, hkc, ?_⟩
      rw [hk, if_pos ((lookup_isSome_iff k t).mpr ht)]
  have hscored : scoredList [(1, ["a dog"]), (2, ["a cat"])] [(1, ["a dog"])] =
      [sentenceScore ["a dog"] "a dog"] := by
    simp [scoredList, List.lookup]
  have hbleu : bleu_score [(1, ["a dog"]), (2, ["a cat"])] [(1, ["a dog"])]
      = sentenceScore ["a dog"] "a dog" := by
    unfold bleu_score
    rw [hscored]
    simp
  refine ⟨hmain, by decide, hbleu, ?_⟩
  rw [hbleu]
  exact sentenceScore_self ["a dog"] "a dog" (by simp) (by decide)

/-- Claim C6: when every candidate string in the prediction map is empty,
every scored image receives score 0 and the (total, never-raising)
aggregate is 0. -/
theorem bleu_empty_candidates (t p : List (Nat × List String))
    (h : ∀ kc ∈ p, ∀ c ∈ kc.2, c = "") : bleu_score t p = 0 := by
  have hall : ∀ x ∈ scoredList t p, x = 0 := by
    intro x hx
    rcases List.mem_filterMap.mp hx with ⟨kc, hkc, hf⟩
    rcases Option.map_eq_some'.mp hf with ⟨refs, _, hscore⟩
    have hcand : kc.2.headD "" = "" := by
      cases hkc2 : kc.2 with
      | nil => rfl
      | cons c0 rest =>
        have : c0 = "" := h kc hkc c0 (by rw [hkc2]; exact List.mem_cons_self c0 rest)
        simp [hkc2, this]
    rw [← hscore, hcand]
    exact sentenceScore_empty_cand refs
  unfold bleu_score
  by_cases hlen : (scoredList t p).length = 0
  · rw [if_pos hlen]
  · rw [if_neg hlen, List.sum_eq_zero hall]
    simp

/-- Witness for C6 at a concrete pair of maps with an empty candidate. -/
theorem bleu_empty_candidates_witness :
    (∀ kc ∈ [(1, [""])], ∀ c ∈ kc.2, c = "") ∧
    bleu_score [(1, ["a dog"])] [(1, [""])] = 0 :=
  ⟨by decide, bleu_empty_candidates [(1, ["a dog"])] [(1, [""])] (by decide)⟩

/-- Counterexample to claim C7 as stated: with empty maps the hypothesis
(every predicted string is identical to a reference string) holds
vacuously yet the aggregate is 0, and with the predicted string "" equal
to the reference string "" the aggregate is 0 as mandated for empty
candidates, not 1. -/
theorem bleu_identical_counterexample :
    bleu_score ([] : List (Nat × List String)) [] = 0
    ∧ bleu_score [(1, [""])] [(1, [""])] = 0
    ∧ ([""].headD "" ∈ [""])
    ∧ (0 : Rat) ≠ 1 := by
  refine ⟨by decide, ?_, by decide, by norm_num⟩
  have h : scoredList [(1, [""])] [(1, [""])] = [sentenceScore [""] ""] := by
    simp [scoredList, List.lookup]
  unfold bleu_score
  rw [h, sentenceScore_empty_cand]
  norm_num

/-- Claim C7 as amended: if at least one image ID is scored (present in
both maps) and, for every scored image, the predicted string is identical
to one of its reference strings and carries at least one token, then the
BLEU aggregate equals 1, the metric's maximum. -/
theorem bleu_identical_max (t p : List (Nat × List String))
    (hne : ∃ kc ∈ p, (List.lookup kc.1 t).isSome)
    (hid : ∀ kc ∈ p, ∀ refs, List.lookup kc.1 t = some refs →
      kc.2.headD "" ∈ refs ∧ tokenize (kc.2.headD "") ≠ []) :
    bleu_score t p = 1 := by
  have hall : ∀ x ∈ scoredList t p, x = 1 := by
    intro x hx
    rcases List.mem_filterMap.mp hx with ⟨kc, hkc, hf⟩
    rcases Option.map_eq_some'.mp hf with ⟨refs, hlook, hscore⟩
    have h2 := hid kc hkc refs hlook
    rw [← hscore]
    exact sentenceScore_self refs _ h2.1 h2.2
  have hnonempty : scoredList t p ≠ [] := by
    rcases hne with ⟨kc, hkc, hsome⟩
    rcases Option.isSome_iff_exists.mp hsome with ⟨refs, hrefs⟩
    have : sentenceScore refs (kc.2.headD "") ∈ scoredList t p :=
      List.mem_filterMap.mpr ⟨kc, hkc, by rw [hrefs]; rfl⟩
    exact List.ne_nil_of_mem this
  have hlen : (scoredList t p).length ≠ 0 := by
    simpa [List.length_eq_zero] using hnonempty
  unfold bleu_score
  rw [if_neg hlen, sum_all_ones _ hall]
  exact div_self (by exact_mod_cast hlen)

/-- Witness for the amended C7 on a concrete identical pair of maps. -/
theorem bleu_identical_max_witness :
    (∃ kc ∈ [(1, ["a dog"])], (List.lookup kc.1 [(1, ["a dog"])]).isSome) ∧
    bleu_score [(1, ["a dog"])] [(1, ["a dog"])] = 1 := by
  refine ⟨by decide, ?_⟩
  refine bleu_identical_max [(1, ["a dog"])] [(1, ["a dog"])] (by decide) ?_
  intro kc hkc refs href
  have hkc2 : kc = (1, ["a dog"]) := by simpa using hkc
  subst hkc2
  have hrefs : refs = ["a dog"] := by
    have : List.lookup 1 [(1, ["a dog"])] = some ["a dog"] := by decide
    rw [this] at href
    exact (Option.some.injEq _ _).mp href.symm
  subst hrefs
  exact ⟨by decide, by decide⟩

/-! ## Helper lemmas: validation inference -/

theorem captionsAt_cons (kv : Int × List String) (m : List (Int × List String))
    (k : Int) : captionsAt (kv :: m) k = if kv.1 = k then kv.2 else captionsAt m k := by
  by_cases h : kv.1 = k
  · simp [captionsAt, List.find?, h]
  · simp [captionsAt, List.find?, h]

theorem captionsAt_nil (k : Int) : captionsAt [] k = [] := rfl

theorem captionsAt_appendAt_same (m : List (Int × List String)) (k : Int) (s : String) :
    captionsAt (appendAt m k s) k = captionsAt m k ++ [s] := by
  induction m with
  | nil => simp [appendAt, captionsAt_cons, captionsAt_nil]
  | cons kv rest ih =>
    by_cases hk : kv.1 = k
    · simp only [appendAt, if_pos hk, captionsAt_cons, if_pos hk]
    · simp only [appendAt, if_neg hk, captionsAt_cons, if_neg hk, ih]

theorem captionsAt_appendAt_ne (m : List (Int × List String)) (k k2 : Int)
    (s : String) (h : k2 ≠ k) : captionsAt (appendAt m k s) k2 = captionsAt m k2 := by
  induction m with
  | nil =>
    have hne : k ≠ k2 := fun hc => h hc.symm
    simp [appendAt, captionsAt_cons, captionsAt_nil, hne]
  | cons kv rest ih =>
    by_cases hk : kv.1 = k
    · have hne : kv.1 ≠ k2 := by
        rw [hk]
        exact fun hc => h hc.symm
      simp only [appendAt, if_pos hk, captionsAt_cons, if_neg hne]
    · simp only [appendAt, if_neg hk, captionsAt_cons, ih]

theorem totalCaptions_cons (kv : Int × List String) (m : List (Int × List String)) :
    totalCaptions (kv :: m) = kv.2.length + totalCaptions m := by
  simp [totalCaptions]

theorem totalCaptions_appendAt (m : List (Int × List String)) (k : Int) (s : String) :
    totalCaptions (appendAt m k s) = totalCaptions m + 1 := by
  induction m with
  | nil => simp [appendAt, totalCaptions]
  | cons kv rest ih =>
    by_cases hk : kv.1 = k
    · simp only [appendAt, if_pos hk, totalCaptions_cons]
      simp
      omega
    · simp only [appendAt, if_neg hk, totalCaptions_cons, ih]
      omega

theorem valStep_eq {Img Feat : Type} (O : ValOracles Img Feat) (st : ValState)
    (q : Int × Img) :
    valStep O st q =
      { predResult := appendAt st.predResult q.1 (O.cleanSentence (O.sample (O.encoder q.2)))
        encoderCalls := st.encoderCalls + 1
        sampleCalls := st.sampleCalls + 1 } := rfl

theorem valRun_foldl_captions {Img Feat : Type} (O : ValOracles Img Feat) :
    ∀ (pairs : List (Int × Img)) (st : ValState) (k : Int),
      captionsAt ((pairs.foldl (valStep O) st).predResult) k =
        captionsAt st.predResult k ++
          (pairs.filter (fun q => q.1 = k)).map
            (fun q => O.cleanSentence (O.sample (O.encoder q.2))) := by
  intro pairs
  induction pairs with
  | nil => intro st k; simp
  | cons q rest ih =>
    intro st k
    rw [List.foldl_cons, ih, valStep_eq]
    by_cases hk : q.1 = k
    · rw [List.filter_cons_of_pos (by simpa using hk)]
      simp only [hk, captionsAt_appendAt_same]
      simp
    · rw [List.filter_cons_of_neg (by simpa using hk)]
      have := captionsAt_appendAt_ne st.predResult q.1 k
        (O.cleanSentence (O.sample (O.encoder q.2))) (fun hc => hk hc.symm)
      simp only [this]

theorem valRun_foldl_counts {Img Feat : Type} (O : ValOracles Img Feat) :
    ∀ (pairs : List (Int × Img)) (st : ValState),
      ((pairs.foldl (valStep O) st).encoderCalls = st.encoderCalls + pairs.length)
      ∧ ((pairs.foldl (valStep O) st).sampleCalls = st.sampleCalls + pairs.length)
      ∧ (totalCaptions (pairs.foldl (valStep O) st).predResult =
          totalCaptions st.predResult + pairs.length) := by
  intro pairs
  induction pairs with
  | nil => intro st; simp
  | cons q rest ih =>
    intro st
    rw [List.foldl_cons]
    obtain ⟨h1, h2, h3⟩ := ih (valStep O st q)
    refine ⟨?_, ?_, ?_⟩
    · rw [h1, valStep_eq]
      simp
      omega
    · rw [h2, valStep_eq]
      simp
      omega
    · rw [h3, valStep_eq]
      simp [totalCaptions_appendAt]
      omega

/-! ## Claim theorem: validation inference -/

/-- Claim C5: over any sequence of (image_id, image) pairs from the
validation loader, the pass runs the encoder exactly once per pair and
decoder sampling exactly once per pair, accumulates exactly one caption
string per pair, and the list for each integer image ID consists of the
cleaned sampled caption of each of its pairs, in order. -/
theorem validation_one_caption_per_pair {Img Feat : Type} (O : ValOracles Img Feat)
    (pairs : List (Int × Img)) :
    (runValInference O pairs).encoderCalls = pairs.length
    ∧ (runValInference O pairs).sampleCalls = pairs.length
    ∧ totalCaptions (runValInference O pairs).predResult = pairs.length
    ∧ ∀ k, captionsAt (runValInference O pairs).predResult k =
        (pairs.filter (fun q => q.1 = k)).map
          (fun q => O.cleanSentence (O.sample (O.encoder q.2))) := by
  obtain ⟨h1, h2, h3⟩ := valRun_foldl_counts O pairs
    { predResult := [], encoderCalls := 0, sampleCalls := 0 }
  refine ⟨by simpa [runValInference] using h1, by simpa [runValInference] using h2,
    by simpa [runValInference, totalCaptions] using h3, ?_⟩
  intro k
  have h := valRun_foldl_captions O pairs
    { predResult := [], encoderCalls := 0, sampleCalls := 0 } k
  simpa [runValInference, captionsAt_nil] using h

/-! ## Additional witnesses at concrete inputs -/

/-- Witness for C2 at a concrete loss value and a concrete step. -/
theorem logged_perplexity_exact_witness :
    (loggedStats 0).2 = Real.exp (loggedStats 0).1
    ∧ (stepTail sampleOracles sampleConfig 1 1 [0] initState).log = initState.log ++
        [statsLine 1 sampleConfig.numEpochs 1 sampleConfig.totalStep
          (sampleOracles.lossOf (sampleOracles.fetchBatch [0]))
          (sampleOracles.expF (sampleOracles.lossOf (sampleOracles.fetchBatch [0]))) ++
          "\n"] :=
  ⟨(logged_perplexity_exact Unit).1 0,
    (logged_perplexity_exact Unit).2 sampleOracles sampleConfig 1 1 [0] initState⟩

/-- Witness for C4 on the spec's concrete mismatched-key scenario. -/
theorem bleu_key_mismatch_excluded_witness :
    scoredIds [(1, ["a dog"]), (2, ["a cat"])] [(1, ["a dog"])] = [1] :=
  bleu_key_mismatch_excluded.2.1

/-- Witness for C5 on a one-pair validation loader. -/
theorem validation_one_caption_per_pair_witness :
    (runValInference sampleValOracles [((1 : Int), ())]).encoderCalls = 1
    ∧ totalCaptions (runValInference sampleValOracles [((1 : Int), ())]).predResult = 1 :=
  ⟨(validation_one_caption_per_pair sampleValOracles [((1 : Int), ())]).1,
    (validation_one_caption_per_pair sampleValOracles [((1 : Int), ())]).2.2.1⟩

/-- Witness for C8 at a concrete step of the concrete configuration. -/
theorem log_line_format_per_step_witness :
    (∃ lossStr perpStr : String,
      (stepTail sampleOracles sampleConfig 1 1 [0] initState).log = initState.log ++
        ["Epoch [" ++ toString 1 ++ "/" ++ toString sampleConfig.numEpochs ++
          "], Step [" ++ toString 1 ++ "/" ++ toString sampleConfig.totalStep ++
          "], Loss: " ++ lossStr ++ ", Perplexity: " ++ perpStr ++ "\n"]
      ∧ (∃ a k, lossStr = a ++ "." ++ pad4 k ∧ (pad4 k).length = 4
          ∧ ∀ c ∈ (pad4 k).toList, c.isDigit = true)
      ∧ (∃ a k, perpStr = a ++ "." ++ pad4 k ∧ (pad4 k).length = 4
          ∧ ∀ c ∈ (pad4 k).toList, c.isDigit = true))
    ∧ (stepTail sampleOracles sampleConfig 1 1 [0] initState).log.length =
        initState.log.length + 1 :=
  log_line_format_per_step sampleOracles sampleConfig 1 1 [0] initState

/-- Witness for C9 at the concrete configuration of one epoch of one step. -/
theorem log_file_open_flush_close_witness :
    ∃ t, (runTraining sampleOracles sampleConfig).1.events = Event.openLog :: t
      ∧ Event.openLog ∉ t
      ∧ writesFlushed (runTraining sampleOracles sampleConfig).1.events = true
      ∧ (Event.closeLog ∈ (runTraining sampleOracles sampleConfig).1.events ↔
          (runTraining sampleOracles sampleConfig).2 = none)
      ∧ ((runTraining sampleOracles sampleConfig).2 = none →
          ∃ t2, (runTraining sampleOracles sampleConfig).1.events =
            t2 ++ [Event.closeLog]) :=
  log_file_open_flush_close sampleOracles sampleConfig
